import Mathlib

/-!
Verification of the screenshot / extraction script `src/vs-screen.py`.

The script is embedded shallowly: pure fragments become Lean functions on
`Nat` / `List Char` / `String`; the randomized sampling loop becomes a fueled
recursion over an explicit stream of draws; calls into external binaries and
the filesystem become an explicit effect trace produced by a run function.
A fatal `sys.exit(1)` (or an uncaught Python exception, which makes the
interpreter print a traceback and exit with status 1) is modeled as an
`Except.error` carrying the final diagnostic line and the exit status.
-/

namespace VsScreen

/-! ## Frame sampler (`get_frame_numbers`, lines 63-70)

`frames = choices(range(length // 10, length // 10 * 9), k=n)` draws `n`
values; `frames = set([x // 100 for x in frames])` collapses them into
hundreds-buckets; `while len(frames) < num_frames: frames.add(choice(...) // 100)`
refills against the GLOBAL `num_frames`; `return [x * 100 for x in frames]`.
The random draws are inputs of the model: `initDraws` are the `choices`
values, the stream `s` gives the value of the i-th `choice` call, and the
loop is fueled (`none` means the loop has not returned within `fuel`
iterations; `= none` for every fuel is non-termination). -/

/-- Inclusive lower end of the sampling range, `length // 10` (line 66). -/
def sampleLo (clipLength : Nat) : Nat := clipLength / 10

/-- Exclusive upper end of the sampling range, `length // 10 * 9` (line 66). -/
def sampleHi (clipLength : Nat) : Nat := clipLength / 10 * 9

/-- Line 67: `set([x // 100 for x in frames])`, the hundreds-buckets of the
initial draws. -/
def initBuckets (draws : List Nat) : Finset Nat :=
  (draws.map (fun x => x / 100)).toFinset

/-- Lines 68-69: `while len(frames) < num_frames: frames.add(choice(...) // 100)`.
`target` is the global `num_frames`; `s i` is the i-th `choice(...)` draw;
`i` indexes the stream. -/
def refill (s : Nat → Nat) (target : Nat) : Nat → Nat → Finset Nat → Option (Finset Nat)
  | 0, _, acc => if target ≤ acc.card then some acc else none
  | fuel + 1, i, acc =>
    if target ≤ acc.card then some acc
    else refill s target fuel (i + 1) (insert (s i / 100) acc)

/-- `get_frame_numbers` (lines 63-70).  The Python function returns
`[x * 100 for x in frames]`, a list enumerating a set in unspecified order;
its value-set is modeled as `Finset.image (fun b => b * 100)`. -/
def get_frame_numbers (target fuel : Nat) (initDraws : List Nat) (s : Nat → Nat) :
    Option (Finset Nat) :=
  (refill s target fuel 0 (initBuckets initDraws)).map (Finset.image (fun b => b * 100))

/-- Buckets contributed by the stream draws `s i, ..., s (i + k - 1)`. -/
def nextBuckets (s : Nat → Nat) : Nat → Nat → Finset Nat
  | _, 0 => ∅
  | i, k + 1 => insert (s i / 100) (nextBuckets s (i + 1) k)

/-- Every hundreds-bucket reachable from the sampling range of a clip. -/
def allBuckets (clipLength : Nat) : Finset Nat :=
  (Finset.Ico (sampleLo clipLength) (sampleHi clipLength)).image (fun x => x / 100)

theorem refill_of_le {s : Nat → Nat} {target : Nat} (fuel i : Nat) {acc : Finset Nat}
    (h : target ≤ acc.card) : refill s target fuel i acc = some acc := by
  cases fuel <;> simp [refill, h]

theorem refill_card {s : Nat → Nat} {target : Nat} :
    ∀ fuel i {acc r : Finset Nat}, refill s target fuel i acc = some r →
      r.card = max target acc.card := by
  intro fuel
  induction fuel with
  | zero =>
    intro i acc r h
    by_cases hc : target ≤ acc.card
    · simp only [refill, if_pos hc] at h
      injection h with h
      subst h
      exact (Nat.max_eq_right hc).symm
    · simp only [refill, if_neg hc] at h
      exact Option.noConfusion h
  | succ f ih =>
    intro i acc r h
    by_cases hc : target ≤ acc.card
    · simp only [refill, if_pos hc] at h
      injection h with h
      subst h
      exact (Nat.max_eq_right hc).symm
    · simp only [refill, if_neg hc] at h
      have h2 := ih (i + 1) h
      have hle : acc.card ≤ (insert (s i / 100) acc).card :=
        Finset.card_le_card (Finset.subset_insert _ _)
      have hle2 : (insert (s i / 100) acc).card ≤ acc.card + 1 :=
        Finset.card_insert_le _ _
      have hx : max target (insert (s i / 100) acc).card = target :=
        Nat.max_eq_left (by omega)
      have hy : max target acc.card = target := Nat.max_eq_left (by omega)
      rw [h2, hx, hy]

theorem refill_some_of_cover {s : Nat → Nat} {target : Nat} :
    ∀ k fuel i (acc : Finset Nat), k ≤ fuel →
      target ≤ (acc ∪ nextBuckets s i k).card →
      ∃ r, refill s target fuel i acc = some r := by
  intro k
  induction k with
  | zero =>
    intro fuel i acc _ hcov
    rw [nextBuckets, Finset.union_empty] at hcov
    exact ⟨acc, refill_of_le fuel i hcov⟩
  | succ k ih =>
    intro fuel i acc hkf hcov
    by_cases hc : target ≤ acc.card
    · exact ⟨acc, refill_of_le fuel i hc⟩
    · obtain ⟨f, rfl⟩ : ∃ f, fuel = f + 1 := ⟨fuel - 1, by omega⟩
      have hf : k ≤ f := by omega
      have hset : acc ∪ nextBuckets s i (k + 1) =
          insert (s i / 100) acc ∪ nextBuckets s (i + 1) k := by
        rw [nextBuckets, Finset.union_insert, Finset.insert_union]
      rw [hset] at hcov
      obtain ⟨r, hr⟩ := ih f (i + 1) (insert (s i / 100) acc) hf hcov
      refine ⟨r, ?_⟩
      simp only [refill, if_neg hc]
      exact hr

theorem refill_mem {s : Nat → Nat} {target : Nat} :
    ∀ fuel i {acc r : Finset Nat}, refill s target fuel i acc = some r →
      ∀ b ∈ r, b ∈ acc ∨ ∃ j, b = s j / 100 := by
  intro fuel
  induction fuel with
  | zero =>
    intro i acc r h b hb
    by_cases hc : target ≤ acc.card
    · simp only [refill, if_pos hc] at h
      injection h with h
      subst h
      exact Or.inl hb
    · simp only [refill, if_neg hc] at h
      exact Option.noConfusion h
  | succ f ih =>
    intro i acc r h b hb
    by_cases hc : target ≤ acc.card
    · simp only [refill, if_pos hc] at h
      injection h with h
      subst h
      exact Or.inl hb
    · simp only [refill, if_neg hc] at h
      rcases ih (i + 1) h b hb with hmem | ⟨j, hj⟩
      · rcases Finset.mem_insert.mp hmem with h1 | h1
        · exact Or.inr ⟨i, h1⟩
        · exact Or.inl h1
      · exact Or.inr ⟨j, hj⟩

theorem initBuckets_card_le (l : List Nat) : (initBuckets l).card ≤ l.length := by
  unfold initBuckets
  calc (l.map fun x => x / 100).toFinset.card
      ≤ (l.map fun x => x / 100).length := (l.map fun x => x / 100).toFinset_card_le
    _ = l.length := List.length_map _ _

theorem mem_initBuckets {l : List Nat} {b : Nat} (h : b ∈ initBuckets l) :
    ∃ x ∈ l, b = x / 100 := by
  unfold initBuckets at h
  rw [List.mem_toFinset, List.mem_map] at h
  obtain ⟨x, hx, hb⟩ := h
  exact ⟨x, hx, hb.symm⟩

theorem mul100_injective : Function.Injective (fun b : Nat => b * 100) := by
  intro a b h
  simp only at h
  omega

/-- For every clip of at least 2000 frames the sampling range spans at least
16 distinct hundreds-buckets, so any target up to 10 leaves the refill loop
room to finish. -/
theorem allBuckets_large {clipLength : Nat} (h : 2000 ≤ clipLength) :
    16 ≤ (allBuckets clipLength).card := by
  have hlo : 200 ≤ clipLength / 10 := by omega
  have hmaps : ∀ j ∈ Finset.range 16,
      sampleLo clipLength / 100 + j ∈ allBuckets clipLength := by
    intro j hj
    rw [Finset.mem_range] at hj
    refine Finset.mem_image.mpr ⟨sampleLo clipLength + j * 100, ?_, ?_⟩
    · rw [Finset.mem_Ico]
      unfold sampleLo sampleHi
      omega
    · rw [Nat.add_mul_div_right _ _ (by norm_num : (0:Nat) < 100)]
  have hinj : Set.InjOn (fun j => sampleLo clipLength / 100 + j)
      (Finset.range 16 : Finset Nat) := by
    intro a _ b _ hab
    simpa using hab
  have := Finset.card_le_card_of_injOn _ hmaps hinj
  simpa using this

/-- C1: with the global `num_frames` equal to the parameter `n` (as at the only
call site, line 226), for every clip length at least 2000 and `1 ≤ n ≤ 10`,
`get_frame_numbers` returns — as soon as the random draws have touched `n`
distinct hundreds-buckets, which the range always offers (`allBuckets_large`)
— exactly `n` distinct frame indices, each a multiple of 100 obtained by
truncating a draw from the middle range to hundreds granularity. -/
theorem sampler_returns_n_distinct_hundreds
    (clipLength n k fuel : Nat) (initDraws : List Nat) (s : Nat → Nat)
    (hlen : 2000 ≤ clipLength) (hn1 : 1 ≤ n) (hn10 : n ≤ 10)
    (hN : initDraws.length = n)
    (hinit : ∀ x ∈ initDraws, sampleLo clipLength ≤ x ∧ x < sampleHi clipLength)
    (hs : ∀ i, sampleLo clipLength ≤ s i ∧ s i < sampleHi clipLength)
    (hkf : k ≤ fuel)
    (hcov : n ≤ (initBuckets initDraws ∪ nextBuckets s 0 k).card) :
    ∃ r, get_frame_numbers n fuel initDraws s = some r ∧ r.card = n ∧
      ∀ y ∈ r, y % 100 = 0 ∧
        ∃ x, sampleLo clipLength ≤ x ∧ x < sampleHi clipLength ∧ y = x / 100 * 100 := by
  obtain ⟨r0, hr0⟩ := refill_some_of_cover k fuel 0 (initBuckets initDraws) hkf hcov
  have hcard0 : r0.card = max n (initBuckets initDraws).card := refill_card fuel 0 hr0
  have hmax : max n (initBuckets initDraws).card = n :=
    Nat.max_eq_left ((initBuckets_card_le initDraws).trans (le_of_eq hN))
  refine ⟨r0.image (fun b => b * 100), ?_, ?_, ?_⟩
  · unfold get_frame_numbers
    rw [hr0]
    rfl
  · rw [Finset.card_image_of_injective _ mul100_injective, hcard0, hmax]
  · intro y hy
    rw [Finset.mem_image] at hy
    obtain ⟨b, hb, rfl⟩ := hy
    refine ⟨Nat.mul_mod_left b 100, ?_⟩
    rcases refill_mem fuel 0 hr0 b hb with hmem | ⟨j, rfl⟩
    · obtain ⟨x, hx, rfl⟩ := mem_initBuckets hmem
      exact ⟨x, (hinit x hx).1, (hinit x hx).2, rfl⟩
    · exact ⟨s j, (hs j).1, (hs j).2, rfl⟩

theorem sampler_returns_n_distinct_hundreds_witness :
    ∃ r, get_frame_numbers 10 0
        [200, 300, 400, 500, 600, 700, 800, 900, 1000, 1100] (fun _ => 200) = some r ∧
      r.card = 10 ∧
      ∀ y ∈ r, y % 100 = 0 ∧
        ∃ x, sampleLo 2000 ≤ x ∧ x < sampleHi 2000 ∧ y = x / 100 * 100 :=
  sampler_returns_n_distinct_hundreds 2000 10 0 0
    [200, 300, 400, 500, 600, 700, 800, 900, 1000, 1100] (fun _ => 200)
    (by decide) (by decide) (by decide) (by decide) (by decide)
    (fun _ => ⟨by norm_num [sampleLo], by norm_num [sampleHi]⟩) (by decide) (by decide)

/-- C2 as stated is false: with every draw inside the legal sampling range of a
12000-frame clip (`range(1200, 10800)`), the result can contain 10700, which
lies outside the claimed interval `[1200, 9600]`. -/
theorem twelvek_clip_bounds_counterexample :
    ([10799, 1200, 1300, 1400, 1500] : List Nat).all
        (fun x => decide (sampleLo 12000 ≤ x ∧ x < sampleHi 12000)) = true ∧
    get_frame_numbers 5 0 [10799, 1200, 1300, 1400, 1500] (fun _ => 1200) =
      some {10700, 1200, 1300, 1400, 1500} ∧
    10700 ∈ ({10700, 1200, 1300, 1400, 1500} : Finset Nat) ∧
    ¬ (10700 ≤ 9600) := by decide

/-- C2 amended: for a 12000-frame clip with the refill target (global
`num_frames`) equal to the requested `n = 5`, every terminating run returns 5
distinct values, each a multiple of 100, all within `[1200, 10700]` (the code
samples `range(1200, 10800)` and truncates to hundreds, so the top value is
10700, not 9600). -/
theorem twelvek_clip_result_shape
    (fuel : Nat) (initDraws : List Nat) (s : Nat → Nat) (r : Finset Nat)
    (hN : initDraws.length = 5)
    (hinit : ∀ x ∈ initDraws, sampleLo 12000 ≤ x ∧ x < sampleHi 12000)
    (hs : ∀ i, sampleLo 12000 ≤ s i ∧ s i < sampleHi 12000)
    (hr : get_frame_numbers 5 fuel initDraws s = some r) :
    r.card = 5 ∧ ∀ y ∈ r, y % 100 = 0 ∧ 1200 ≤ y ∧ y ≤ 10700 := by
  unfold get_frame_numbers at hr
  obtain ⟨r0, hr0, himg⟩ := Option.map_eq_some'.mp hr
  subst himg
  constructor
  · rw [Finset.card_image_of_injective _ mul100_injective, refill_card fuel 0 hr0]
    have := initBuckets_card_le initDraws
    omega
  · intro y hy
    rw [Finset.mem_image] at hy
    obtain ⟨b, hb, rfl⟩ := hy
    have hbx : ∃ x, sampleLo 12000 ≤ x ∧ x < sampleHi 12000 ∧ b = x / 100 := by
      rcases refill_mem fuel 0 hr0 b hb with hmem | ⟨j, rfl⟩
      · obtain ⟨x, hx, rfl⟩ := mem_initBuckets hmem
        exact ⟨x, (hinit x hx).1, (hinit x hx).2, rfl⟩
      · exact ⟨s j, (hs j).1, (hs j).2, rfl⟩
    obtain ⟨x, hx1, hx2, rfl⟩ := hbx
    unfold sampleLo at hx1
    unfold sampleHi at hx2
    refine ⟨Nat.mul_mod_left _ 100, ?_, ?_⟩ <;> omega

theorem twelvek_clip_result_shape_witness :
    ({1200, 1300, 1400, 1500, 1600} : Finset Nat).card = 5 ∧
    ∀ y ∈ ({1200, 1300, 1400, 1500, 1600} : Finset Nat),
      y % 100 = 0 ∧ 1200 ≤ y ∧ y ≤ 10700 :=
  twelvek_clip_result_shape 0 [1200, 1300, 1400, 1500, 1600] (fun _ => 1200)
    {1200, 1300, 1400, 1500, 1600}
    (by decide) (by decide)
    (fun _ => ⟨by norm_num [sampleLo], by norm_num [sampleHi]⟩) (by decide)

/-- C3: when the sampling range holds strictly fewer distinct hundreds-buckets
than the refill target (the global `num_frames`), the refill loop can never
reach the target for any sequence of in-range draws: every fuel yields
`none`, i.e. the sampler never returns. -/
theorem refill_loop_never_terminates
    (clipLength target : Nat) (initDraws : List Nat) (s : Nat → Nat)
    (hb : (allBuckets clipLength).card < target)
    (hinit : ∀ x ∈ initDraws, sampleLo clipLength ≤ x ∧ x < sampleHi clipLength)
    (hs : ∀ i, sampleLo clipLength ≤ s i ∧ s i < sampleHi clipLength) :
    ∀ fuel, get_frame_numbers target fuel initDraws s = none := by
  have hsub : initBuckets initDraws ⊆ allBuckets clipLength := by
    intro b hbmem
    obtain ⟨x, hx, rfl⟩ := mem_initBuckets hbmem
    exact Finset.mem_image.mpr
      ⟨x, Finset.mem_Ico.mpr ⟨(hinit x hx).1, (hinit x hx).2⟩, rfl⟩
  have key : ∀ fuel i (acc : Finset Nat), acc ⊆ allBuckets clipLength →
      refill s target fuel i acc = none := by
    intro fuel
    induction fuel with
    | zero =>
      intro i acc hacc
      have hlt : acc.card < target := lt_of_le_of_lt (Finset.card_le_card hacc) hb
      simp only [refill, if_neg (Nat.not_le.mpr hlt)]
    | succ f ih =>
      intro i acc hacc
      have hlt : acc.card < target := lt_of_le_of_lt (Finset.card_le_card hacc) hb
      have hins : insert (s i / 100) acc ⊆ allBuckets clipLength := by
        intro b hbm
        rcases Finset.mem_insert.mp hbm with rfl | hb2
        · exact Finset.mem_image.mpr
            ⟨s i, Finset.mem_Ico.mpr ⟨(hs i).1, (hs i).2⟩, rfl⟩
        · exact hacc hb2
      simp only [refill, if_neg (Nat.not_le.mpr hlt)]
      exact ih (i + 1) _ hins
  intro fuel
  unfold get_frame_numbers
  rw [key fuel 0 _ hsub]
  rfl

set_option maxRecDepth 40000 in
theorem refill_loop_never_terminates_witness :
    (allBuckets 120).card < 6 ∧
    get_frame_numbers 6 50 [12] (fun _ => 12) = none :=
  ⟨by decide,
    refill_loop_never_terminates 120 6 [12] (fun _ => 12)
      (by decide) (by decide)
      (fun _ => ⟨by norm_num [sampleLo], by norm_num [sampleHi]⟩) 50⟩

/-- C10: the refill loop on line 68 compares the set size against the global
`num_frames` (the `target` of the model), not against the parameter `n`; a
terminating call returns exactly `max target u` values, where `u` is the
number of distinct hundreds-buckets among the initial draws, so `n` only
sizes the initial batch. -/
theorem result_size_is_max_of_target_and_initial
    (target fuel : Nat) (initDraws : List Nat) (s : Nat → Nat) (r : Finset Nat)
    (hr : get_frame_numbers target fuel initDraws s = some r) :
    r.card = max target (initBuckets initDraws).card := by
  unfold get_frame_numbers at hr
  obtain ⟨r0, hr0, himg⟩ := Option.map_eq_some'.mp hr
  subst himg
  rw [Finset.card_image_of_injective _ mul100_injective]
  exact refill_card fuel 0 hr0

theorem result_size_is_max_of_target_and_initial_witness :
    ({100, 200, 300} : Finset Nat).card = max 2 (initBuckets [100, 200, 300]).card :=
  result_size_is_max_of_target_and_initial 2 0 [100, 200, 300] (fun _ => 100)
    {100, 200, 300} (by decide)

/-! ## Subtitle codec table (`parse_sub_type`, lines 194-207)

An unknown codec name prints a diagnostic and calls `sys.exit(1)`; that fatal
path is modeled as `none`. -/

/-- `parse_sub_type` (lines 194-207): the fixed codec-name-to-extension table;
`none` models the print-and-`sys.exit(1)` fatal branch. -/
def parse_sub_type (sub_type : String) : Option String :=
  if sub_type = "HDMV PGS" then some ".pgs"
  else if sub_type = "SubStationAlpha" then some ".ass"
  else if sub_type = "SubRip/SRT" then some ".srt"
  else if sub_type = "VobSub" then some ".idx"
  else none

/-- C4: `parse_sub_type` maps each of the four known codec names to its one
fixed extension and is fatal (modeled `none`: the code prints an error and
exits with status 1) on every other input string. -/
theorem parse_sub_type_table (s : String)
    (hs : s ∉ (["HDMV PGS", "SubStationAlpha", "SubRip/SRT", "VobSub"] : List String)) :
    parse_sub_type "HDMV PGS" = some ".pgs" ∧
    parse_sub_type "SubStationAlpha" = some ".ass" ∧
    parse_sub_type "SubRip/SRT" = some ".srt" ∧
    parse_sub_type "VobSub" = some ".idx" ∧
    parse_sub_type s = none := by
  refine ⟨by decide, by decide, by decide, by decide, ?_⟩
  simp only [List.mem_cons, List.not_mem_nil, or_false, not_or] at hs
  obtain ⟨h1, h2, h3, h4⟩ := hs
  simp [parse_sub_type, h1, h2, h3, h4]

theorem parse_sub_type_table_witness :
    parse_sub_type "HDMV PGS" = some ".pgs" ∧
    parse_sub_type "SubStationAlpha" = some ".ass" ∧
    parse_sub_type "SubRip/SRT" = some ".srt" ∧
    parse_sub_type "VobSub" = some ".idx" ∧
    parse_sub_type "Teletext" = none :=
  parse_sub_type_table "Teletext" (by decide)

/-! ## Path arithmetic (posix `os.path`), used by the extraction and save-path
code.  Paths are `List Char`; only the forward slash is a separator, as in
`posixpath`. -/

/-- `posixpath.join(a, b)` for a single extra component. -/
def pyJoin (a b : List Char) : List Char :=
  if b.head? = some '/' then b
  else if a = [] then a ++ b
  else if a.getLast? = some '/' then a ++ b
  else a ++ '/' :: b

/-- `p[:p.rfind(sep) + 1]`: the prefix of `p` up to and including its last
slash, `[]` when `p` has no slash. -/
def takeToLastSlash (p : List Char) : List Char :=
  (p.reverse.dropWhile (fun c => !(c == '/'))).reverse

/-- `head.rstrip(sep)`. -/
def rstripSlashes (l : List Char) : List Char :=
  (l.reverse.dropWhile (fun c => c == '/')).reverse

/-- `posixpath.dirname(p)`: the prefix up to the last slash, with trailing
slashes stripped unless the whole prefix is slashes. -/
def pyDirname (p : List Char) : List Char :=
  let head := takeToLastSlash p
  if head.all (fun c => c == '/') then head else rstripSlashes head

/-- `posixpath.basename(p)`: everything after the last slash. -/
def pyBasename (p : List Char) : List Char :=
  (p.reverse.takeWhile (fun c => !(c == '/'))).reverse

/-- The extension part of `posixpath.splitext` restricted to a basename: the
suffix from the last dot, empty when there is no dot or when every character
before that dot is itself a dot (leading dots never open an extension). -/
def extOfBase (b : List Char) : List Char :=
  if b.reverse.dropWhile (fun c => !(c == '.')) = [] then []
  else if ((b.reverse.dropWhile (fun c => !(c == '.'))).tail).all (fun c => c == '.') then []
  else '.' :: (b.reverse.takeWhile (fun c => !(c == '.'))).reverse

/-- `posixpath.splitext(p)[1]`: the last dot only counts inside the basename,
so this is the basename extension. -/
def pySplitextExt (p : List Char) : List Char := extOfBase (pyBasename p)

/-- `posixpath.splitext(os.path.basename(p))[0]` as used on line 105/107. -/
def pyStem (p : List Char) : List Char :=
  (pyBasename p).take ((pyBasename p).length - (extOfBase (pyBasename p)).length)

/-- `re.split(r'[\\/]', filename)[-1]` (line 213/235): the substring after the
last slash or backslash. -/
def lastComponent (p : List Char) : List Char :=
  (p.reverse.takeWhile (fun c => !(c == '/' || c == '\\'))).reverse

/-- `.rsplit('.', 1)[0]`: everything before the last dot, or the whole string
when it has no dot. -/
def stemOf (b : List Char) : List Char :=
  if '.' ∈ b then ((b.reverse.dropWhile (fun c => !(c == '.'))).tail).reverse else b

/-- `dir_name` of the run (line 213/235). -/
def dirNameOf (p : List Char) : List Char := stemOf (lastComponent p)

/-- The directory the save-path branch creates when absent:
`os.path.join(user_save_path, dir_name)` (lines 239-241). -/
def save_branch_created_dir (p f : List Char) : List Char :=
  pyJoin p (dirNameOf f)

/-- The directory the same branch then uses for every written file:
`os.path.join(os.path.dirname(user_save_path), dir_name)` (line 242). -/
def save_branch_used_dir (p f : List Char) : List Char :=
  pyJoin (pyDirname p) (dirNameOf f)

theorem mem_takeWhile_pred {q : Char → Bool} :
    ∀ {l : List Char} {x : Char}, x ∈ l.takeWhile q → q x = true := by
  intro l
  induction l with
  | nil =>
    intro x h
    simp [List.takeWhile] at h
  | cons c t ih =>
    intro x h
    rw [List.takeWhile_cons] at h
    by_cases hc : q c
    · rw [if_pos hc] at h
      rcases List.mem_cons.mp h with rfl | h2
      · exact hc
      · exact ih h2
    · rw [if_neg hc] at h
      simp at h

theorem stemOf_subset {b : List Char} {x : Char} (h : x ∈ stemOf b) : x ∈ b := by
  unfold stemOf at h
  by_cases hdot : '.' ∈ b
  · rw [if_pos hdot] at h
    rw [List.mem_reverse] at h
    have h3 : x ∈ b.reverse.dropWhile (fun c => !(c == '.')) := List.mem_of_mem_tail h
    have h4 : x ∈ b.reverse := (List.dropWhile_sublist _).subset h3
    exact List.mem_reverse.mp h4
  · rw [if_neg hdot] at h
    exact h

theorem lastComponent_no_sep {p : List Char} : '/' ∉ lastComponent p := by
  intro h
  unfold lastComponent at h
  rw [List.mem_reverse] at h
  have := mem_takeWhile_pred h
  simp at this

theorem dirNameOf_no_slash (f : List Char) : '/' ∉ dirNameOf f :=
  fun h => lastComponent_no_sep (stemOf_subset h)

theorem head_ne_slash_of_not_mem {d : List Char} (hd : '/' ∉ d) :
    d.head? ≠ some '/' := by
  cases d with
  | nil => simp
  | cons c t =>
    intro h
    injection h with h
    subst h
    exact hd (List.mem_cons_self _ _)

theorem rstripSlashes_length_le (l : List Char) :
    (rstripSlashes l).length ≤ l.length := by
  unfold rstripSlashes
  rw [List.length_reverse]
  calc (l.reverse.dropWhile (fun c => c == '/')).length
      ≤ l.reverse.length := (List.dropWhile_sublist _).length_le
    _ = l.length := List.length_reverse _

theorem pyDirname_length_lt {p : List Char} (hp : p ≠ []) (hsep : p.getLast? ≠ some '/') :
    (pyDirname p).length < p.length := by
  obtain ⟨c, rest, hrev⟩ : ∃ c rest, p.reverse = c :: rest := by
    cases hq : p.reverse with
    | nil =>
      exact absurd (by simpa using congrArg List.reverse hq) hp
    | cons c rest => exact ⟨c, rest, rfl⟩
  have hc : ¬(c == '/') = true := by
    intro h
    apply hsep
    rw [← List.head?_reverse, hrev]
    simp only [List.head?]
    rw [show c = '/' from by simpa using h]
  have hhead : takeToLastSlash p = (rest.dropWhile (fun x => !(x == '/'))).reverse := by
    unfold takeToLastSlash
    rw [hrev, List.dropWhile_cons]
    simp [hc]
  have h1 : (takeToLastSlash p).length ≤ rest.length := by
    rw [hhead, List.length_reverse]
    exact (List.dropWhile_sublist _).length_le
  have hplen : p.length = rest.length + 1 := by
    have := congrArg List.length hrev
    simpa using this
  unfold pyDirname
  by_cases hall : (takeToLastSlash p).all (fun c => c == '/')
  · rw [if_pos hall]
    omega
  · rw [if_neg hall]
    have := rstripSlashes_length_le (takeToLastSlash p)
    omega

theorem pyJoin_length_le (a b : List Char) (hb : b.head? ≠ some '/') :
    (pyJoin a b).length ≤ a.length + 1 + b.length := by
  unfold pyJoin
  rw [if_neg hb]
  by_cases h1 : a = []
  · rw [if_pos h1]
    simp only [List.length_append]
    omega
  · rw [if_neg h1]
    by_cases h2 : a.getLast? = some '/'
    · rw [if_pos h2]
      simp only [List.length_append]
      omega
    · rw [if_neg h2]
      simp only [List.length_append, List.length_cons]
      omega

theorem pyJoin_length_eq (a b : List Char) (ha : a ≠ []) (ha2 : a.getLast? ≠ some '/')
    (hb : b.head? ≠ some '/') : (pyJoin a b).length = a.length + 1 + b.length := by
  unfold pyJoin
  rw [if_neg hb, if_neg ha, if_neg ha2]
  simp only [List.length_append, List.length_cons]
  omega

/-- C9: with `--save-path P` (non-empty, not ending in a separator), the
directory created is `join(P, dir_name)` while every later write goes to
`join(dirname(P), dir_name)` — and those two paths always differ, so the
branch never created the directory it writes into. -/
theorem save_path_created_differs_from_used
    (P f : List Char) (hP : P ≠ []) (hsep : P.getLast? ≠ some '/') :
    save_branch_created_dir P f ≠ save_branch_used_dir P f := by
  have hd : '/' ∉ dirNameOf f := dirNameOf_no_slash f
  have hb := head_ne_slash_of_not_mem hd
  have h1 : (pyJoin P (dirNameOf f)).length = P.length + 1 + (dirNameOf f).length :=
    pyJoin_length_eq P _ hP hsep hb
  have h2 : (pyJoin (pyDirname P) (dirNameOf f)).length ≤
      (pyDirname P).length + 1 + (dirNameOf f).length := pyJoin_length_le _ _ hb
  have h3 := pyDirname_length_lt hP hsep
  intro heq
  unfold save_branch_created_dir save_branch_used_dir at heq
  have := congrArg List.length heq
  omega

theorem save_path_created_differs_from_used_witness :
    save_branch_created_dir "out".toList "movie.mkv".toList ≠
      save_branch_used_dir "out".toList "movie.mkv".toList :=
  save_path_created_differs_from_used "out".toList "movie.mkv".toList
    (by decide) (by decide)

/-! ## Font attachment selection (`get_fonts`, lines 141-156) -/

/-- One attachment line parsed by the regex on line 134:
`Attachment ID <id> ... type '<mime>' ... name '<fname>'`. -/
structure Attachment where
  id : String
  mime : String
  fname : List Char
deriving DecidableEq

/-- Line 145: `types = ("application/x-truetype-font", "application/vnd.ms-opentype")`. -/
def fontMimeTypes : List String :=
  ["application/x-truetype-font", "application/vnd.ms-opentype"]

/-- Line 144: `ext = os.path.splitext(attach[2])[1].lower()` (ASCII lowering). -/
def attachExtLower (a : Attachment) : List Char :=
  (pySplitextExt a.fname).map Char.toLower

/-- `attach[1] in types`. -/
def mimeIsFont (m : String) : Bool := fontMimeTypes.contains m

/-- `ext == ".otf" or ext == ".ttf"`. -/
def extIsFont (e : List Char) : Bool := (e == ".otf".toList) || (e == ".ttf".toList)

/-- The three `if`/`elif` branches of lines 146-156 that append the attachment
to `to_extract` (the final `else` keeps nothing). -/
def fontSelected (a : Attachment) : Bool :=
  if mimeIsFont a.mime && extIsFont (attachExtLower a) then true
  else if mimeIsFont a.mime && !(extIsFont (attachExtLower a)) then true
  else if !(mimeIsFont a.mime) && extIsFont (attachExtLower a) then true
  else false

/-- The `to_extract` list built by the loop of lines 143-156: the selected
attachments in order, as `[attach[0], attach[2]]` pairs. -/
def to_extract (atts : List Attachment) : List (String × List Char) :=
  (atts.filter fontSelected).map (fun a => (a.id, a.fname))

/-- C6: an attachment is put into `to_extract` exactly when its declared MIME
type is one of the two known font types OR its lower-cased extension is
`.otf`/`.ttf`, and that disjunction is symmetric: swapping the evaluation
order of the MIME check and the extension check selects the same list. -/
theorem font_selection_is_symmetric_disjunction (atts : List Attachment) :
    to_extract atts =
      ((atts.filter (fun a => mimeIsFont a.mime || extIsFont (attachExtLower a))).map
        (fun a => (a.id, a.fname))) ∧
    atts.filter (fun a => mimeIsFont a.mime || extIsFont (attachExtLower a)) =
      atts.filter (fun a => extIsFont (attachExtLower a) || mimeIsFont a.mime) := by
  constructor
  · unfold to_extract
    congr 1
    apply List.filter_congr
    intro a _
    unfold fontSelected
    cases hm : mimeIsFont a.mime <;> cases he : extIsFont (attachExtLower a) <;> simp
  · apply List.filter_congr
    intro a _
    exact Bool.or_comm _ _

/-! ## Demuxer backend choice (`open_clip`, lines 53-60) -/

/-- The two decode backends of lines 56/58. -/
inductive Backend where
  | lwlibav
  | ffms2
deriving DecidableEq

/-- Line 55: `path.endswith('ts')` — true exactly when the last two characters
are `t`,`s`. -/
def endswith_ts (p : List Char) : Bool := decide (p.reverse.take 2 = ['s', 't'])

/-- The backend chosen by `open_clip` (lines 55-58). -/
def open_clip_backend (path : List Char) : Backend :=
  if endswith_ts path then Backend.lwlibav else Backend.ffms2

/-- C7 as stated is false: `"movie.mts"` ends with the two characters `ts`, so
the code picks the LWLibavSource backend, yet its extension is `.mts`,
neither `.ts` nor `.m2ts`. -/
theorem backend_not_extension_counterexample :
    open_clip_backend "movie.mts".toList = Backend.lwlibav ∧
    pySplitextExt "movie.mts".toList ≠ ".ts".toList ∧
    pySplitextExt "movie.mts".toList ≠ ".m2ts".toList := by decide

theorem endswith_ts_of_rev {path rest : List Char} (h : path.reverse = 's' :: 't' :: rest) :
    endswith_ts path = true := by
  unfold endswith_ts
  rw [h]
  simp

theorem ext_gives_ts_suffix {path : List Char}
    (h : pySplitextExt path = ".ts".toList ∨ pySplitextExt path = ".m2ts".toList) :
    endswith_ts path = true := by
  have hbase : (pyBasename path).reverse = path.reverse.takeWhile (fun c => !(c == '/')) := by
    unfold pyBasename
    rw [List.reverse_reverse]
  have htw : ∃ tl, (pyBasename path).reverse.takeWhile (fun c => !(c == '.')) =
      's' :: 't' :: tl := by
    rcases h with h | h
    · unfold pySplitextExt extOfBase at h
      rw [show ".ts".toList = ['.', 't', 's'] from rfl] at h
      split_ifs at h with h1 h2
      injection h with h3 h4
      refine ⟨[], ?_⟩
      have h5 := congrArg List.reverse h4
      rw [List.reverse_reverse] at h5
      simpa using h5
    · unfold pySplitextExt extOfBase at h
      rw [show ".m2ts".toList = ['.', 'm', '2', 't', 's'] from rfl] at h
      split_ifs at h with h1 h2
      injection h with h3 h4
      refine ⟨['2', 'm'], ?_⟩
      have h5 := congrArg List.reverse h4
      rw [List.reverse_reverse] at h5
      simpa using h5
  obtain ⟨tl, htl⟩ := htw
  have hsplit1 : (pyBasename path).reverse =
      's' :: 't' :: (tl ++ (pyBasename path).reverse.dropWhile (fun c => !(c == '.'))) := by
    conv_lhs => rw [← List.takeWhile_append_dropWhile
      (p := fun c => !(c == '.')) (l := (pyBasename path).reverse)]
    rw [htl]
    rfl
  have hsplit2 : path.reverse =
      (pyBasename path).reverse ++ path.reverse.dropWhile (fun c => !(c == '/')) := by
    rw [hbase]
    exact (List.takeWhile_append_dropWhile _ _).symm
  rw [hsplit1] at hsplit2
  exact endswith_ts_of_rev hsplit2

/-- C7 amended: `open_clip` selects the LWLibavSource backend exactly when the
path ends with the two characters `ts` — a superset of the `.ts`/`.m2ts`
extensions (which do imply that backend) that also catches extensions such as
`.mts` or `.fonts`. -/
theorem backend_is_bare_ts_suffix_test (path : List Char) :
    (open_clip_backend path = Backend.lwlibav ↔ endswith_ts path = true) ∧
    ((pySplitextExt path = ".ts".toList ∨ pySplitextExt path = ".m2ts".toList) →
      open_clip_backend path = Backend.lwlibav) := by
  constructor
  · constructor
    · intro h
      by_contra hts
      unfold open_clip_backend at h
      rw [if_neg hts] at h
      exact Backend.noConfusion h
    · intro h
      unfold open_clip_backend
      rw [if_pos h]
  · intro h
    unfold open_clip_backend
    rw [if_pos (ext_gives_ts_suffix h)]

/-! ## The script run (`__main__`, lines 210-299) as an effect trace

External state is an `Env`: what `mkvmerge -i` reports (already split by the
two regexes of lines 82/134), whether the `mkvextract` subprocesses exit 0,
whether the output directory already exists, the working directory, and
whether an image writer plugin is installed.  Every subprocess invocation and
filesystem write becomes an `Eff`; printed lines are collected in order; a
fatal path carries the final diagnostic line and the exit status. -/

/-- What the external world does during one run. -/
structure Env where
  mkvmergeOk : Bool
  subMatches : List (String × String)
  attachments : List Attachment
  extractOk : Bool
  dirExists : Bool
  cwd : List Char
  hasImwri : Bool

/-- The parsed command line (lines 38-48); the flag strings of argparse are
truthy exactly when present, hence `Bool` fields, and `sub_track` keeps the
Python `int` (0 is falsy on line 217/251). -/
structure Config where
  filename : List Char
  framesArg : Option (List Nat)
  sub_track : Option Int
  extract_only : Bool
  user_save_path : Option (List Char)
  remove_sources : Bool
  to_zip : Bool
  remove_dir : Bool
  remove_index : Bool

/-- One observable effect of the run. -/
inductive Eff where
  | mkdirE (path : List Char)
  | extractSubE (trackId : String) (dest : List Char)
  | extractFontE (attId : String) (dest : List Char)
  | writeFrameE (dir : List Char) (frame : Nat)
  | removeSourcesE (dir : List Char)
  | zipE (dir : List Char)
  | removeDirE (dir : List Char)
  | removeIndexE
deriving DecidableEq

/-- A fatal end of the run: the last diagnostic line and the exit status. -/
structure Fatal where
  msg : String
  code : Nat
deriving DecidableEq

/-- The observable outcome of a terminating run. -/
structure RunOut where
  effs : List Eff
  out : List String
  exitCode : Nat
deriving DecidableEq

/-- Final line of the interpreter traceback for the uncaught `IndexError`
raised by `mat[num - 1]` on line 86; the interpreter prints it and exits
with status 1. -/
def indexErrorTraceback : String := "IndexError: list index out of range"

/-- Stand-in for `print(ex)` after a `CalledProcessError` (line 80/131). -/
def calledProcessErrorLine : String := "subprocess.CalledProcessError"

/-- The diagnostic of the unknown-codec fatal branch (line 206), abbreviated
without the apostrophe of the original text. -/
def unknownSubTypeLine : String := "Error: did not get a known sub type - exiting"

def extractSubFailLine : String := "ERROR: Could not extract subtitles despite finding some"

def extractFontFailLine : String := "ERROR: Could not extract font despite finding it"

def subTrackNotSpecifiedLine : String := "Sub track not specified so not grabbing"

def noFontAttachmentsLine : String := "Found no font attachments"

def indexingLine : String := "Indexing... May take a while in the file size is large"

def requestingFramesLine : String := "Requesting frames:"

def doneWritingLine : String := "Done writing screenshots"

def mismatchTypeLine : String := "Found font type without otf/ttf extension - still extracting"

def mismatchExtLine : String := "Found font with extension but not of correct type - still extracting"

/-- Final line of the interpreter traceback for the `AttributeError` raised on
line 234 when neither image writer is installed. -/
def attributeErrorTraceback : String :=
  "AttributeError: Either imwri or imwrif must be installed."

/-- Python list indexing `l[i]` with negative-index wraparound; `none` is an
`IndexError`. -/
def pyListGet (l : List (String × String)) (i : Int) : Option (String × String) :=
  if 0 ≤ i then l.get? i.toNat
  else if (-i).toNat ≤ l.length then l.get? (l.length - (-i).toNat)
  else none

/-- `get_sub_track_id` (lines 73-92).  A `mkvmerge` failure prints the
exception and exits 1; an out-of-range `num` raises an uncaught `IndexError`
at `mat[num - 1]` (line 86), traceback and exit status 1.  The
`else: return None, None` arm of line 91 is unreachable: `mat` there is a
pair produced by `findall`, always truthy. -/
def get_sub_track_id_m (env : Env) (num : Int) : Except Fatal (String × String) :=
  if env.mkvmergeOk then
    match pyListGet env.subMatches (num - 1) with
    | some m => Except.ok m
    | none => Except.error ⟨indexErrorTraceback, 1⟩
  else Except.error ⟨calledProcessErrorLine, 1⟩

/-- `get_subs` (lines 95-122): resolve the track, map the codec to an
extension (`parse_sub_type` exits 1 on unknown names), build the destination
path (line 105/107: no extension for VobSub), run `mkvextract tracks`, and
exit 1 when it returns non-zero.  The `track_id_m is None` check of line 98
cannot fire (see `get_sub_track_id_m`). -/
def get_subs_m (env : Env) (file savep : List Char) (track : Int) :
    List Eff × List String × Except Fatal (String × String) :=
  match get_sub_track_id_m env track with
  | Except.error f => ([], [], Except.error f)
  | Except.ok (tid, subType) =>
    match parse_sub_type subType with
    | none => ([], [], Except.error ⟨unknownSubTypeLine, 1⟩)
    | some ext =>
      let dest := if ext = ".idx" then pyJoin savep (pyStem file)
        else pyJoin savep (pyStem file ++ ext.toList)
      if env.extractOk then
        ([Eff.extractSubE tid dest],
          ["Extracted subtitle to " ++ String.mk dest], Except.ok (tid, ext))
      else
        ([Eff.extractSubE tid dest], [], Except.error ⟨extractSubFailLine, 1⟩)

/-- The mismatch warning printed for an attachment (lines 151/155). -/
def fontWarning (a : Attachment) : Option String :=
  if mimeIsFont a.mime && extIsFont (attachExtLower a) then none
  else if mimeIsFont a.mime && !(extIsFont (attachExtLower a)) then some mismatchTypeLine
  else if !(mimeIsFont a.mime) && extIsFont (attachExtLower a) then some mismatchExtLine
  else none

/-- `get_fonts` (lines 125-178): list attachments with `mkvmerge -i` (exit 1
on failure), select fonts (lines 143-156), then run `mkvextract attachments`
once per selected font (lines 166-173); a non-zero exit is fatal after the
failing call.  `env.extractOk` says whether the `mkvextract` calls exit 0;
when it is false the first call already fails.  The `all_attachments is None`
check of line 137 cannot fire: `findall` returns a list. -/
def get_fonts_m (env : Env) (file savep : List Char) :
    List Eff × List String × Except Fatal Unit :=
  if env.mkvmergeOk then
    let warns := env.attachments.filterMap fontWarning
    match to_extract env.attachments with
    | [] => ([], warns ++ [noFontAttachmentsLine], Except.ok ())
    | p :: rest =>
      if env.extractOk then
        ((p :: rest).map (fun q => Eff.extractFontE q.1 (pyJoin savep q.2)),
          warns ++ ["Extracted fonts to " ++ String.mk savep], Except.ok ())
      else
        ([Eff.extractFontE p.1 (pyJoin savep p.2)], warns,
          Except.error ⟨extractFontFailLine, 1⟩)
  else ([], [], Except.error ⟨calledProcessErrorLine, 1⟩)

/-- The whole `__main__` block (lines 210-299).  `sampled` abstracts what
`get_frame_numbers(filename, num_frames)` would return under the ambient
random draws (see `get_frame_numbers`); `none` means the sampling loop never
returns, hence the run never terminates (`script_run = none`).  Cleanup
(lines 265-299) is abstracted into one effect per enabled flag. -/
def script_run (cfg : Config) (env : Env) (sampled : Option (List Nat)) : Option RunOut :=
  if cfg.extract_only then
    let dir_name := dirNameOf cfg.filename
    let save_path := pyJoin env.cwd dir_name
    let mkEffs : List Eff := if env.dirExists then [] else [Eff.mkdirE save_path]
    let fontsRun : List Eff × List String × Nat :=
      match get_fonts_m env cfg.filename save_path with
      | (ge, go, Except.ok _) => (ge, go, 0)
      | (ge, go, Except.error f) => (ge, go ++ [f.msg], f.code)
    match cfg.sub_track with
    | some t =>
      if t = 0 then
        some ⟨mkEffs ++ fontsRun.1, subTrackNotSpecifiedLine :: fontsRun.2.1, fontsRun.2.2⟩
      else
        match get_subs_m env cfg.filename save_path t with
        | (se, so, Except.error f) => some ⟨mkEffs ++ se, so ++ [f.msg], f.code⟩
        | (se, so, Except.ok _) =>
          some ⟨mkEffs ++ se ++ fontsRun.1, so ++ fontsRun.2.1, fontsRun.2.2⟩
    | none =>
      some ⟨mkEffs ++ fontsRun.1, subTrackNotSpecifiedLine :: fontsRun.2.1, fontsRun.2.2⟩
  else
    match (match cfg.framesArg with
           | some fs => some fs
           | none => sampled) with
    | none => none
    | some frames =>
      let outPre : List String :=
        (match cfg.framesArg with
         | some _ => []
         | none => [indexingLine]) ++ [requestingFramesLine]
      if env.hasImwri then
        let dir_name := dirNameOf cfg.filename
        let defaultPaths : List Char × List Char :=
          (pyJoin (pyDirname cfg.filename) dir_name,
            pyJoin (pyDirname cfg.filename) dir_name)
        let paths : List Char × List Char :=
          match cfg.user_save_path with
          | some p =>
            if p = [] then defaultPaths
            else (save_branch_created_dir p cfg.filename,
              save_branch_used_dir p cfg.filename)
          | none => defaultPaths
        let save_path := paths.2
        let mkEffs : List Eff := if env.dirExists then [] else [Eff.mkdirE paths.1]
        let outPre2 := outPre ++ [String.mk save_path]
        let writesEffs := frames.map (fun fr => Eff.writeFrameE save_path fr)
        let writesOut := frames.map (fun fr =>
            "Writing " ++ String.mk save_path ++ "/" ++ toString fr ++ ".png") ++
          [doneWritingLine]
        let cleanupEffs : List Eff :=
          (if cfg.remove_sources then [Eff.removeSourcesE save_path] else []) ++
          (if cfg.to_zip then [Eff.zipE save_path] else []) ++
          (if cfg.remove_dir then [Eff.removeDirE save_path] else []) ++
          (if cfg.remove_index then [Eff.removeIndexE] else [])
        match cfg.sub_track with
        | some t =>
          if t = 0 then
            some ⟨mkEffs ++ writesEffs ++ cleanupEffs, outPre2 ++ writesOut, 0⟩
          else
            match get_subs_m env cfg.filename save_path t with
            | (se, so, Except.error f) =>
              some ⟨mkEffs ++ se, outPre2 ++ so ++ [f.msg], f.code⟩
            | (se, so, Except.ok _) =>
              match get_fonts_m env cfg.filename save_path with
              | (ge, go, Except.error f) =>
                some ⟨mkEffs ++ se ++ ge, outPre2 ++ so ++ go ++ [f.msg], f.code⟩
              | (ge, go, Except.ok _) =>
                some ⟨mkEffs ++ se ++ ge ++ writesEffs ++ cleanupEffs,
                  outPre2 ++ so ++ go ++ writesOut, 0⟩
        | none =>
          some ⟨mkEffs ++ writesEffs ++ cleanupEffs, outPre2 ++ writesOut, 0⟩
      else
        some ⟨[], outPre ++ [attributeErrorTraceback], 1⟩

/-- Effects that write a file (the zip archive included; `mkdirE` creates a
directory, the remove effects delete). -/
def isFileWriteEff : Eff → Bool
  | Eff.extractSubE _ _ => true
  | Eff.extractFontE _ _ => true
  | Eff.writeFrameE _ _ => true
  | Eff.zipE _ => true
  | _ => false

def isMkdirOrFontEff : Eff → Bool
  | Eff.mkdirE _ => true
  | Eff.extractFontE _ _ => true
  | _ => false

def isFontEff : Eff → Bool
  | Eff.extractFontE _ _ => true
  | _ => false

theorem get_subs_m_out_of_range (env : Env) (file savep : List Char) (t : Int)
    (hmk : env.mkvmergeOk = true) (ht : (env.subMatches.length : Int) < t) :
    get_subs_m env file savep t = ([], [], Except.error ⟨indexErrorTraceback, 1⟩) := by
  have hid : get_sub_track_id_m env t = Except.error ⟨indexErrorTraceback, 1⟩ := by
    unfold get_sub_track_id_m
    rw [hmk]
    have hget : pyListGet env.subMatches (t - 1) = none := by
      unfold pyListGet
      rw [if_pos (by omega : (0:Int) ≤ t - 1)]
      exact List.get?_eq_none.mpr (by omega)
    rw [hget]
    rfl
  unfold get_subs_m
  rw [hid]

/-- C5: whenever the requested 1-indexed subtitle-track number exceeds the
number of subtitle-track matches parsed from `mkvmerge -i`, a terminating run
ends fatally with a non-zero exit status, the last printed line is the
`IndexError` diagnostic, and no file-writing effect (no subtitle extraction,
no font extraction, no frame write, no zip) has happened. -/
theorem out_of_range_sub_track_fatal
    (cfg : Config) (env : Env) (sampled : Option (List Nat)) (t : Int) (r : RunOut)
    (hsub : cfg.sub_track = some t)
    (ht : (env.subMatches.length : Int) < t)
    (hmk : env.mkvmergeOk = true)
    (himwri : env.hasImwri = true)
    (hrun : script_run cfg env sampled = some r) :
    r.exitCode ≠ 0 ∧ r.out.getLast? = some indexErrorTraceback ∧
      r.effs.all (fun e => !(isFileWriteEff e)) = true := by
  have ht0 : ¬(t = 0) := by
    have h0 : (0:Int) ≤ (env.subMatches.length : Int) := Int.natCast_nonneg _
    omega
  have hgs : ∀ savep, get_subs_m env cfg.filename savep t =
      ([], [], Except.error ⟨indexErrorTraceback, 1⟩) :=
    fun savep => get_subs_m_out_of_range env cfg.filename savep t hmk ht
  by_cases hext : cfg.extract_only
  · simp only [script_run, if_pos hext, hsub, if_neg ht0, hgs] at hrun
    injection hrun with hrun
    subst hrun
    refine ⟨by simp, by simp, ?_⟩
    cases env.dirExists <;> simp [isFileWriteEff]
  · cases hfa : cfg.framesArg with
    | some fs =>
      simp only [script_run, if_neg hext, hfa, hsub, if_neg ht0, himwri, if_true, hgs,
        if_pos rfl] at hrun
      injection hrun with hrun
      subst hrun
      refine ⟨by simp, by simp, ?_⟩
      cases env.dirExists <;> simp [isFileWriteEff]
    | none =>
      cases hsamp : sampled with
      | none =>
        simp only [script_run, if_neg hext, hfa, hsamp] at hrun
        exact Option.noConfusion hrun
      | some fs =>
        simp only [script_run, if_neg hext, hfa, hsamp, hsub, if_neg ht0, himwri,
          if_true, hgs, if_pos rfl] at hrun
        injection hrun with hrun
        subst hrun
        refine ⟨by simp, by simp, ?_⟩
        cases env.dirExists <;> simp [isFileWriteEff]

def cfgC5 : Config :=
  ⟨"video.mkv".toList, some [100], some 7, false, none, false, false, false, false⟩

def envC5 : Env := ⟨true, [("3", "SubRip/SRT")], [], true, true, "/work".toList, true⟩

def rC5 : RunOut := ⟨[], [requestingFramesLine, "video", indexErrorTraceback], 1⟩

theorem out_of_range_sub_track_fatal_witness :
    rC5.exitCode ≠ 0 ∧ rC5.out.getLast? = some indexErrorTraceback ∧
      rC5.effs.all (fun e => !(isFileWriteEff e)) = true :=
  out_of_range_sub_track_fatal cfgC5 envC5 none 7 rC5
    (by decide) (by decide) (by decide) (by decide) (by decide)

theorem get_fonts_m_ok_nil (env : Env) (file savep : List Char)
    (hmk : env.mkvmergeOk = true) (hfe : to_extract env.attachments = []) :
    get_fonts_m env file savep =
      ([], env.attachments.filterMap fontWarning ++ [noFontAttachmentsLine],
        Except.ok ()) := by
  unfold get_fonts_m
  rw [hmk, if_pos rfl, hfe]

theorem get_fonts_m_ok_cons (env : Env) (file savep : List Char)
    (p : String × List Char) (rest : List (String × List Char))
    (hmk : env.mkvmergeOk = true) (hok : env.extractOk = true)
    (hfe : to_extract env.attachments = p :: rest) :
    get_fonts_m env file savep =
      ((p :: rest).map (fun q => Eff.extractFontE q.1 (pyJoin savep q.2)),
        env.attachments.filterMap fontWarning ++
          ["Extracted fonts to " ++ String.mk savep], Except.ok ()) := by
  unfold get_fonts_m
  rw [hmk, if_pos rfl, hfe, hok]
  rfl

/-- C8: a run with `--extract-only` and no subtitle track exits with status 0
after only creating the output directory (when needed) and extracting the
selected font attachments: every effect is a mkdir or a font extraction, and
the font extractions are exactly the selected attachments; in particular no
frame is written and no subtitle-extraction subprocess runs. -/
theorem extract_only_extracts_only_fonts
    (cfg : Config) (env : Env) (sampled : Option (List Nat)) (r : RunOut)
    (hext : cfg.extract_only = true)
    (hsub : cfg.sub_track = none)
    (hmk : env.mkvmergeOk = true)
    (hok : env.extractOk = true)
    (hrun : script_run cfg env sampled = some r) :
    r.exitCode = 0 ∧ r.effs.all isMkdirOrFontEff = true ∧
      r.effs.filter isFontEff =
        (to_extract env.attachments).map
          (fun q => Eff.extractFontE q.1
            (pyJoin (pyJoin env.cwd (dirNameOf cfg.filename)) q.2)) := by
  cases hfe : to_extract env.attachments with
  | nil =>
    simp only [script_run, if_pos hext, hsub,
      get_fonts_m_ok_nil env cfg.filename (pyJoin env.cwd (dirNameOf cfg.filename))
        hmk hfe] at hrun
    injection hrun with hrun
    subst hrun
    refine ⟨rfl, ?_, ?_⟩
    · cases env.dirExists <;> simp [isMkdirOrFontEff]
    · cases env.dirExists <;> simp [isFontEff, hfe]
  | cons p rest =>
    simp only [script_run, if_pos hext, hsub,
      get_fonts_m_ok_cons env cfg.filename (pyJoin env.cwd (dirNameOf cfg.filename))
        p rest hmk hok hfe] at hrun
    injection hrun with hrun
    subst hrun
    have hmap : ∀ e ∈ (p :: rest).map (fun q => Eff.extractFontE q.1
        (pyJoin (pyJoin env.cwd (dirNameOf cfg.filename)) q.2)), isFontEff e = true := by
      intro e he
      rw [List.mem_map] at he
      obtain ⟨q, hq, rfl⟩ := he
      rfl
    refine ⟨rfl, ?_, ?_⟩
    · rw [List.all_append, Bool.and_eq_true]
      constructor
      · cases env.dirExists <;> rfl
      · rw [List.all_eq_true]
        intro e he
        rw [List.mem_map] at he
        obtain ⟨q, hq, rfl⟩ := he
        rfl
    · show List.filter isFontEff
          ((if env.dirExists = true then ([] : List Eff)
            else [Eff.mkdirE (pyJoin env.cwd (dirNameOf cfg.filename))]) ++
            (p :: rest).map (fun q => Eff.extractFontE q.1
              (pyJoin (pyJoin env.cwd (dirNameOf cfg.filename)) q.2))) =
          (p :: rest).map (fun q => Eff.extractFontE q.1
            (pyJoin (pyJoin env.cwd (dirNameOf cfg.filename)) q.2))
      rw [List.filter_append, List.filter_eq_self.mpr hmap]
      cases env.dirExists <;> rfl

def cfgC8 : Config :=
  ⟨"video.mkv".toList, none, none, true, none, false, false, false, false⟩

def envC8 : Env :=
  ⟨true, [], [⟨"1", "application/x-truetype-font", "font1.ttf".toList⟩], true, false,
    "/cw".toList, true⟩

def rC8 : RunOut :=
  ⟨[Eff.mkdirE "/cw/video".toList, Eff.extractFontE "1" "/cw/video/font1.ttf".toList],
    [subTrackNotSpecifiedLine, "Extracted fonts to /cw/video"], 0⟩

theorem extract_only_extracts_only_fonts_witness :
    rC8.exitCode = 0 ∧ rC8.effs.all isMkdirOrFontEff = true ∧
      rC8.effs.filter isFontEff =
        (to_extract envC8.attachments).map
          (fun q => Eff.extractFontE q.1
            (pyJoin (pyJoin envC8.cwd (dirNameOf cfgC8.filename)) q.2)) :=
  extract_only_extracts_only_fonts cfgC8 envC8 none rC8
    (by decide) (by decide) (by decide) (by decide) (by decide)
